import Mathlib

/-!
Shallow embedding of the R2D2-2019/datastructures repository:
`src/code/headers/ringbuffer.hpp` (class `ringbuffer_c<T, MaxSize>`) and
`src/code/headers/queue.hpp` (class `queue_c<T, MaxSize, Optimization>`).

Conventions of the embedding:
* `size_t` is modelled as `Nat` with explicit wraparound modulo `2 ^ 64`
  (`W`); the C++ `x++`, `x--` and `a - b` on `size_t` become `wadd`, `wsub1`
  and `wsub`.
* the backing array `T buffer[MaxSize]` is a `List T` of length `MaxSize`;
  an in-bounds write is `List.set`; a read that may be out of bounds is
  `List.get?` returning `none` exactly when the C++ read would be out of
  the array (undefined behavior).
* the compile-time template parameter `MaxSize` is passed as an explicit
  `Nat` argument `N` to the operations that mention it.
-/

/-- Width of `size_t` (the build targets a 64-bit platform). -/
def W : Nat := 2 ^ 64

/-- Wrapping `size_t` addition. -/
def wadd (a b : Nat) : Nat := (a + b) % W

/-- Wrapping `size_t` subtraction `a - b` (for `a b < W`). -/
def wsub (a b : Nat) : Nat := (a + (W - b % W)) % W

/-- Wrapping `size_t` decrement `a - 1` (for `a < W`). -/
def wsub1 (a : Nat) : Nat := (a + (W - 1)) % W

/-- State of `ringbuffer_c<T, MaxSize>`: the array and the three `size_t`
fields `head`, `tail`, `used` (ringbuffer.hpp lines 19-23). -/
structure ringbuffer_c (T : Type) where
  buffer : List T
  head : Nat
  tail : Nat
  used : Nat
deriving DecidableEq

/-- Default constructor: `T buffer[MaxSize] = {}` value-initializes every
slot; `head = tail = used = 0`. -/
def ringbuffer_c.init (T : Type) [Inhabited T] (N : Nat) : ringbuffer_c T :=
  ⟨List.replicate N default, 0, 0, 0⟩

/-- Embedding of `ringbuffer_c::empty()` (line 176): `used == 0`. -/
def ringbuffer_c.empty (s : ringbuffer_c T) : Bool := s.used == 0

/-- Embedding of `ringbuffer_c::full()` (line 185): `used == MaxSize`. -/
def ringbuffer_c.full (N : Nat) (s : ringbuffer_c T) : Bool := s.used == N

/-- Embedding of `ringbuffer_c::size()` (line 194): returns `used`. -/
def ringbuffer_c.size (s : ringbuffer_c T) : Nat := s.used

/-- Embedding of `ringbuffer_c::max_size()` (line 203). -/
def ringbuffer_c.max_size (N : Nat) : Nat := N

/-- Embedding of `ringbuffer_c::get_next_location()` (lines 31-46): wrap
`tail` to 0 when `tail >= MaxSize`, save `prev_tail = tail++`; if `full()`
then `tail = head; head = (head + 1) % MaxSize` else `used += 1`; return
`prev_tail` together with the updated state. -/
def ringbuffer_c.get_next_location (N : Nat) (s : ringbuffer_c T) :
    Nat × ringbuffer_c T :=
  let t0 := if N ≤ s.tail then 0 else s.tail
  let prev_tail := t0
  let s1 : ringbuffer_c T := { s with tail := wadd t0 1 }
  if s1.full N then
    (prev_tail, { s1 with tail := s1.head, head := (s1.head + 1) % N })
  else
    (prev_tail, { s1 with used := wadd s1.used 1 })

/-- Embedding of `ringbuffer_c::push(const T&)` (lines 60-65): store `val`
at the index returned by `get_next_location()`.  The C++ function also
returns a reference to the stored copy (that is, `val` itself); the
embedding returns the new state. -/
def ringbuffer_c.push (N : Nat) (val : T) (s : ringbuffer_c T) :
    ringbuffer_c T :=
  let r := s.get_next_location N
  { r.2 with buffer := r.2.buffer.set r.1 val }

/-- Embedding of `ringbuffer_c::emplace(Args&&...)` (lines 74-80): identical
to `push` applied to the value `T(args...)` constructed from the arguments;
the embedding takes that constructed value directly. -/
def ringbuffer_c.emplace (N : Nat) (val : T) (s : ringbuffer_c T) :
    ringbuffer_c T :=
  s.push N val

/-- Embedding of `ringbuffer_c::copy_and_pop()` (lines 88-117): read the
slot before `tail` (`MaxSize - 1` when `tail == 0`), return it unmodified
when `used == 0`, otherwise decrement `used` and move `tail` back one slot
(to `MaxSize - 1` when `tail == 0`). -/
def ringbuffer_c.copy_and_pop (N : Nat) (s : ringbuffer_c T) :
    Option T × ringbuffer_c T :=
  let pos := if s.tail ≠ 0 then s.tail - 1 else N - 1
  let item := s.buffer.get? pos
  if s.used = 0 then
    (item, s)
  else
    (item, { s with used := wsub1 s.used,
                    tail := if s.tail = 0 then N - 1 else s.tail - 1 })

/-- Embedding of `ringbuffer_c::copy_and_pop_front()` (lines 124-138): read
`buffer[head]`; then `if (MaxSize - head > 0) head++; else head = 0;` with
`size_t` subtraction, and decrement `used` unconditionally. -/
def ringbuffer_c.copy_and_pop_front (N : Nat) (s : ringbuffer_c T) :
    Option T × ringbuffer_c T :=
  let item := s.buffer.get? s.head
  let head2 := if wsub N s.head ≠ 0 then wadd s.head 1 else 0
  (item, { s with head := head2, used := wsub1 s.used })

/-- Embedding of `ringbuffer_c::reset()` (lines 145-149): zero the indices,
keep the storage. -/
def ringbuffer_c.reset (s : ringbuffer_c T) : ringbuffer_c T :=
  { s with head := 0, tail := 0, used := 0 }

/-- Embedding of `ringbuffer_c::operator[]` (lines 157-169): reference to
`buffer[(head + index) % MaxSize]`. -/
def ringbuffer_c.getAt (N : Nat) (s : ringbuffer_c T) (index : Nat) :
    Option T :=
  s.buffer.get? ((s.head + index) % N)

/-- Embedding of the `queue_optimization` enum (queue.hpp lines 7-10). -/
inductive queue_optimization where
  | READ
  | WRITE
deriving DecidableEq

/-- State of `queue_c<T, MaxSize, Optimization>`: the array and the
`size_t` field `index` (queue.hpp lines 22-23). -/
structure queue_c (T : Type) where
  buffer : List T
  index : Nat
deriving DecidableEq

/-- Default state of `queue_c`: `T buffer[MaxSize] = {}` and `index = 0`. -/
def queue_c.init (T : Type) [Inhabited T] (N : Nat) : queue_c T :=
  ⟨List.replicate N default, 0⟩

/-- Embedding of the descending relocation loop in `queue_c::push` for the
READ optimization (queue.hpp lines 42-44):
`for (size_t i = index; i != 0; i--) buffer[i] = buffer[i - 1];`.
The recursion argument is the loop variable `i`. -/
def shiftUpLoop [Inhabited T] : List T → Nat → List T
  | buf, 0 => buf
  | buf, i + 1 => shiftUpLoop (buf.set (i + 1) (buf.getD i default)) i

/-- Embedding of the ascending relocation loop in `queue_c::pop` for the
WRITE optimization (queue.hpp lines 70-72):
`for (size_t i = 1; i < index; i++) buffer[i - 1] = buffer[i];`.
`fuel` counts the remaining iterations, `i` is the loop variable. -/
def shiftDownGo [Inhabited T] (buf : List T) (i : Nat) : Nat → List T
  | 0 => buf
  | fuel + 1 => shiftDownGo (buf.set (i - 1) (buf.getD i default)) (i + 1) fuel

/-- The full `pop` relocation loop: it runs for `i = 1, ..., index - 1`,
that is `index - 1` iterations starting at `i = 1`. -/
def shiftDownLoop [Inhabited T] (buf : List T) (index : Nat) : List T :=
  shiftDownGo buf 1 (index - 1)

/-- Embedding of `queue_c::push(const T&)` (lines 31-51): under WRITE,
write `buffer[index] = item`; under READ, shift slots `[0, index)` one
slot up (this models the element-wise branch; the `memmove` taken for
trivially-copyable `T` is modelled separately at the byte level as
`pod_queue.push_read`), then `buffer[0] = item`; in both cases
`index += 1`. -/
def queue_c.push [Inhabited T] (opt : queue_optimization) (item : T)
    (q : queue_c T) : queue_c T :=
  match opt with
  | .WRITE => { q with buffer := q.buffer.set q.index item,
                       index := wadd q.index 1 }
  | .READ => { q with buffer := (shiftUpLoop q.buffer q.index).set 0 item,
                      index := wadd q.index 1 }

/-- Embedding of `queue_c::pop()` (lines 56-77): under WRITE, shift slots
`[1, index)` one slot down (element-wise branch; the byte-level `memcpy`
taken for trivially-copyable `T` is modelled as `pod_queue.pop`); in both
cases `index -= 1`. -/
def queue_c.pop [Inhabited T] (opt : queue_optimization) (q : queue_c T) :
    queue_c T :=
  match opt with
  | .WRITE => { q with buffer := shiftDownLoop q.buffer q.index,
                       index := wsub1 q.index }
  | .READ => { q with index := wsub1 q.index }

/-- Embedding of `queue_c::front()` (lines 93-110): `buffer[0]` under
WRITE, `buffer[index - 1]` under READ (`size_t` subtraction). An out of
range read yields the unspecified `default`. -/
def queue_c.front [Inhabited T] (opt : queue_optimization) (q : queue_c T) :
    T :=
  match opt with
  | .WRITE => q.buffer.getD 0 default
  | .READ => q.buffer.getD (wsub1 q.index) default

/-- Embedding of `queue_c::back()` (lines 115-132): `buffer[index - 1]`
under WRITE, `buffer[0]` under READ. -/
def queue_c.back [Inhabited T] (opt : queue_optimization) (q : queue_c T) :
    T :=
  match opt with
  | .WRITE => q.buffer.getD (wsub1 q.index) default
  | .READ => q.buffer.getD 0 default

/-- Embedding of `queue_c::copy_and_pop()` (lines 83-88): `T item =
front(); pop(); return item;`. -/
def queue_c.copy_and_pop [Inhabited T] (opt : queue_optimization)
    (q : queue_c T) : T × queue_c T :=
  (q.front opt, q.pop opt)

/-- Embedding of `queue_c::size()` (lines 139-141): returns `index`. -/
def queue_c.size (q : queue_c T) : Nat := q.index

/-- Embedding of `queue_c::empty()` (lines 148-150): `size() == 0`. -/
def queue_c.empty (q : queue_c T) : Bool := q.size == 0

/-- Embedding of `queue_c::full()` (lines 157-159): `size() == max_size()`. -/
def queue_c.full (N : Nat) (q : queue_c T) : Bool := q.size == N

/-- Embedding of `queue_c::max_size()` (lines 166-168). -/
def queue_c.max_size (N : Nat) : Nat := N

/-- Modelled from the spec: `clear()` is called by the repository test
suite (`main.cpp`, test "queue is empty after clear()") but is missing
from `queue.hpp` under src/.  Per the spec it "resets count to 0 in O(1);
does not erase stored values (they become logically unreachable)". -/
def queue_c.clear (q : queue_c T) : queue_c T :=
  { q with index := 0 }

/-- Read of one byte of the queue storage viewed as raw memory. -/
def bget (bytes : List Nat) (i : Nat) : Nat := bytes.getD i 0

/-- Little-endian store of a 32-bit value into element slot `i` of the raw
byte array (models `buffer[i] = item` for `T = int` on a little-endian
32-bit-int platform). -/
def writeElem32 (bytes : List Nat) (i v : Nat) : List Nat :=
  (((bytes.set (4 * i) (v % 256)).set (4 * i + 1) (v / 256 % 256)).set
      (4 * i + 2) (v / 256 ^ 2 % 256)).set (4 * i + 3) (v / 256 ^ 3 % 256)

/-- Little-endian load of the 32-bit element in slot `i` of the raw byte
array. -/
def readElem32 (bytes : List Nat) (i : Nat) : Nat :=
  bget bytes (4 * i) + 256 * bget bytes (4 * i + 1) +
    256 ^ 2 * bget bytes (4 * i + 2) + 256 ^ 3 * bget bytes (4 * i + 3)

/-- Semantics of `memcpy(dst, src, n)` on the raw byte array when the
destination offset is at or before the source offset (the case in
queue.hpp line 64): byte `j` of the result is byte `src + (j - dst)` of
the original array when `dst <= j < dst + n`, unchanged otherwise. -/
def memcpyBytes (bytes : List Nat) (dst src n : Nat) : List Nat :=
  (List.range bytes.length).map fun j =>
    if dst ≤ j ∧ j < dst + n then bget bytes (src + (j - dst)) else bget bytes j

/-- State of `queue_c<int, MaxSize, WRITE>` viewed as raw memory, for the
`std::is_pod_v<T>` branches: the storage as a byte list (4 bytes per
element, little endian) and the `size_t` field `index`. -/
structure pod_queue where
  bytes : List Nat
  index : Nat
deriving DecidableEq

/-- Default state of `queue_c<int, MaxSize, WRITE>` as raw memory: `4 *
MaxSize` zero bytes. -/
def pod_queue.init (N : Nat) : pod_queue :=
  ⟨List.replicate (4 * N) 0, 0⟩

/-- Embedding of `queue_c::push` for `T = int` under WRITE (queue.hpp
lines 32-33, 50): `buffer[index] = item; index += 1;`. -/
def pod_queue.push (v : Nat) (q : pod_queue) : pod_queue :=
  ⟨writeElem32 q.bytes q.index v, wadd q.index 1⟩

/-- Embedding of `queue_c::pop` for `T = int` under WRITE (queue.hpp lines
58-68, 76): `memcpy((void*) buffer, (const void*) (buffer + 1), index);
index -= 1;`.  Note the length argument of the `memcpy` is `index` — a
byte count equal to the element count, not `index * sizeof(int)`; the
source offset `buffer + 1` is `sizeof(int) = 4` bytes. -/
def pod_queue.pop (q : pod_queue) : pod_queue :=
  ⟨memcpyBytes q.bytes 0 4 q.index, wsub1 q.index⟩

/-- Embedding of `queue_c::front` for `T = int` under WRITE (queue.hpp
lines 94-95): `return buffer[0];`. -/
def pod_queue.front (q : pod_queue) : Nat :=
  readElem32 q.bytes 0

/-- Semantics of `memmove(dst, src, n)` on the raw byte array: `memmove`
copies as if through a temporary buffer, so byte `j` of the result is
byte `src + (j - dst)` of the original array when `dst <= j < dst + n`,
unchanged otherwise. -/
def memmoveBytes (bytes : List Nat) (dst src n : Nat) : List Nat :=
  (List.range bytes.length).map fun j =>
    if dst ≤ j ∧ j < dst + n then bget bytes (src + (j - dst))
    else bget bytes j

/-- Embedding of `queue_c::push` for `T = int` under READ (queue.hpp
lines 35-40, 47, 50): `memmove((void*) (buffer + 1), (const void*)
buffer, index); buffer[0] = item; index += 1;`.  As in `pod_queue.pop`,
the length argument of the `memmove` is `index` — a byte count equal to
the element count, not `index * sizeof(int)`; the destination offset
`buffer + 1` is `sizeof(int) = 4` bytes. -/
def pod_queue.push_read (v : Nat) (q : pod_queue) : pod_queue :=
  ⟨writeElem32 (memmoveBytes q.bytes 4 0 q.index) 0 v, wadd q.index 1⟩

/-- Embedding of `queue_c::front` for `T = int` under READ (queue.hpp
lines 96-97): `return buffer[index - 1];`. -/
def pod_queue.front_read (q : pod_queue) : Nat :=
  readElem32 q.bytes (wsub1 q.index)

/-- Modelled from the spec: `clear()` on the raw-memory view of
`queue_c<int, MaxSize, READ>` — resets the count to 0 and leaves the
stored bytes untouched (`clear()` is absent from queue.hpp; the
repository test suite calls it). -/
def pod_queue.clear (q : pod_queue) : pod_queue :=
  ⟨q.bytes, 0⟩

theorem W_eq : W = 18446744073709551616 := by norm_num [W]

theorem wadd_one_eq (a : Nat) (h : a + 1 < W) : wadd a 1 = a + 1 := by
  simpa [wadd] using Nat.mod_eq_of_lt h

theorem wsub1_eq (a : Nat) (h0 : 0 < a) (h : a < W) : wsub1 a = a - 1 := by
  have hW : W = 18446744073709551616 := W_eq
  simp only [wsub1, hW] at *
  omega

theorem getD_set_self [Inhabited T] (l : List T) (n : Nat) (a : T)
    (h : n < l.length) : (l.set n a).getD n default = a := by
  rw [List.getD_eq_getElem (l.set n a) default (by simpa using h)]
  exact List.getElem_set_self (by simpa using h)

theorem getD_set_other [Inhabited T] (l : List T) (m n : Nat) (a : T)
    (h : m ≠ n) : (l.set m a).getD n default = l.getD n default := by
  by_cases hn : n < l.length
  · rw [List.getD_eq_getElem (l.set m a) default (by simpa using hn),
      List.getD_eq_getElem l default hn]
    exact List.getElem_set_ne h _
  · rw [List.getD_eq_default l default (by omega),
      List.getD_eq_default (l.set m a) default (by simp; omega)]

/-- C1 (counterexample): for capacity 2, after push(5), push(92), push(18),
the first `copy_and_pop()` returns 92, not 18 as the claim states.  (This
agrees with the repository test "Ringbuffer wraps around on overflow",
which requires 92 first; the spec sentence has the two values swapped.) -/
theorem c1_counterexample :
    (let s := (((ringbuffer_c.init Nat 2).push 2 5).push 2 92).push 2 18
     (s.copy_and_pop 2).1 = some 92 ∧ (s.copy_and_pop 2).1 ≠ some 18) := by
  decide

/-- C1 (amended): `copy_and_pop()` removes and returns the element at the
slot before `tail`, which after an evicting push into a full buffer is not
the most-recently-written element; for capacity 2, after push(5),
push(92), push(18), the first `copy_and_pop()` returns 92 and the second
returns 18. -/
theorem c1_amended :
    (let s := (((ringbuffer_c.init Nat 2).push 2 5).push 2 92).push 2 18
     let p1 := s.copy_and_pop 2
     let p2 := p1.2.copy_and_pop 2
     p1.1 = some 92 ∧ p2.1 = some 18) := by
  decide

/-- C2 (evaluation at the failing input): capacity 2, push(5), push(92),
push(18), push(7).  The claim requires that the 2 most-recently pushed
elements, 18 then 7, are retained with logical element i at slot
`(head + i) mod 2`, the oldest (92) having been evicted.  The code
instead leaves `buffer = [7, 92]` with `head = 0`: the second evicting
push wrote over slot 0 — which held the newest element 18, not the
oldest — so indexed access yields 7 and 92. -/
theorem c2_code_eval :
    (let s := ((((ringbuffer_c.init Nat 2).push 2 5).push 2 92).push 2
        18).push 2 7
     s.buffer = [7, 92] ∧ s.head = 0 ∧
       s.getAt 2 0 = some 7 ∧ s.getAt 2 1 = some 92 ∧
       s.getAt 2 0 ≠ some 18 ∧ s.getAt 2 1 ≠ some 7) := by
  decide

/-- C3 (evaluation at the failing input): capacity 2, push(5), push(92),
then `copy_and_pop_front()` twice leaves `head = 2 = N`, violating the
claimed invariant `0 ≤ head < N`; after push(18), push(28) the next
`copy_and_pop_front()` reads slot 2 — out of the 2-slot array (`none` in
the embedding) — where the repository test "Ringbuffer copy and pop front
rolover correct" requires the value 18. -/
theorem c3_code_eval :
    (let f2 := ((((ringbuffer_c.init Nat 2).push 2 5).push 2
        92).copy_and_pop_front 2).2.copy_and_pop_front 2
     let s := (f2.2.push 2 18).push 2 28
     f2.2.head = 2 ∧ s.used = 2 ∧ (s.copy_and_pop_front 2).1 = none) := by
  decide

/-- C4 (evaluation at the failing input): `queue_c<int, 2, WRITE>` with
32-bit little-endian `int`: push(100000), push(200000), pop().  The
`std::is_pod_v<int>` branch of `pop` copies `index` bytes (2) instead of
`index * sizeof(int)` bytes, so `front()` yields 68928 instead of the
earliest remaining pushed element 200000 — which the element-wise branch
of the very same function (taken for non-trivially-copyable `T`)
correctly returns. -/
theorem c4_code_eval :
    (let q := pod_queue.pop (pod_queue.push 200000 (pod_queue.push 100000
        (pod_queue.init 2)))
     let q2 := queue_c.pop .WRITE (queue_c.push .WRITE 200000
        (queue_c.push .WRITE 100000 (queue_c.init Nat 2)))
     q.front = 68928 ∧ q.front ≠ 200000 ∧ q2.front .WRITE = 200000) := by
  decide

/-- C5 (counterexample): under the ShiftOnInsert policy (READ
optimization) with capacity 2, a single push(10) stores the element at
slot 0, not at slot `N - count = 1` as the claim states; slot 1 still
holds the default value 0. -/
theorem c5_counterexample :
    (let q := queue_c.push .READ 10 (queue_c.init Nat 2)
     q.index = 1 ∧ q.buffer.getD 0 default = 10 ∧
       q.buffer.getD 1 default ≠ 10) := by
  decide

/-- C6 (counterexample): for `queue_c<int, 3, READ>` with 32-bit
little-endian `int` (the `std::is_pod_v` memmove branch of push):
push(300), push(301), push(9), then `clear()`, then push(5), push(6)
leaves `front() = 261` — the memmove length is `index` bytes, so stale
pre-clear bytes leak into the relocated element — while the same pushes
on a freshly constructed queue give `front() = 5`.  So a push-then-query
sequence after `clear()` is not always identical to the same sequence on
a fresh queue. -/
theorem c6_counterexample :
    (let qc := pod_queue.push_read 6 (pod_queue.push_read 5
        (pod_queue.clear (pod_queue.push_read 9 (pod_queue.push_read 301
          (pod_queue.push_read 300 (pod_queue.init 3))))))
     let qf := pod_queue.push_read 6 (pod_queue.push_read 5
        (pod_queue.init 3))
     qc.front_read = 261 ∧ qf.front_read = 5 ∧
       qc.front_read ≠ qf.front_read) := by
  decide

/-- C7 (counterexample): `queue_c<Nat, 2, WRITE>` in the reachable,
not-full state holding one element 1: push(2) followed by
`copy_and_pop()` returns 1 (the front of the queue), not the just-pushed
2. -/
theorem c7_counterexample :
    (let q1 := queue_c.push .WRITE 1 (queue_c.init Nat 2)
     let q2 := queue_c.push .WRITE 2 q1
     q1.full 2 = false ∧ (q2.copy_and_pop .WRITE).1 = 1 ∧
       (q2.copy_and_pop .WRITE).1 ≠ 2) := by
  decide

/-- C8: calling `copy_and_pop()` on an empty ring buffer (`used == 0`)
returns the stale value stored at the previous-tail slot (`tail - 1`,
wrapping to `N - 1` when `tail == 0`) — an in-bounds read — and leaves the
whole state (head, tail, used, buffer) unchanged. -/
theorem c8_pop_back_empty {T : Type} (N : Nat) (s : ringbuffer_c T)
    (hN : 0 < N) (hlen : s.buffer.length = N) (hu : s.used = 0)
    (ht : s.tail ≤ N) :
    (s.copy_and_pop N).2 = s ∧
      (s.copy_and_pop N).1 =
        s.buffer.get? (if s.tail = 0 then N - 1 else s.tail - 1) ∧
      (if s.tail = 0 then N - 1 else s.tail - 1) < N ∧
      ((s.copy_and_pop N).1).isSome = true := by
  have hpos : (if s.tail = 0 then N - 1 else s.tail - 1) < N := by
    by_cases h0 : s.tail = 0 <;> simp [h0] <;> omega
  have hif : (if s.tail ≠ 0 then s.tail - 1 else N - 1) =
      (if s.tail = 0 then N - 1 else s.tail - 1) := by
    by_cases h0 : s.tail = 0 <;> simp [h0]
  refine ⟨?_, ?_, hpos, ?_⟩
  · simp [ringbuffer_c.copy_and_pop, hu]
  · simp [ringbuffer_c.copy_and_pop, hu, hif]
  · simp only [ringbuffer_c.copy_and_pop, hu, if_pos rfl, hif]
    rw [List.get?_eq_getElem?, List.getElem?_eq_getElem (by omega)]
    rfl

/-- C8 (witness): the empty state with stale storage `[5, 7]`, `head = 1`,
`tail = 1`, `used = 0` at capacity 2: `copy_and_pop()` returns the stale
value 5 at slot `tail - 1 = 0` and leaves the state unchanged. -/
theorem c8_witness :
    ((⟨[5, 7], 1, 1, 0⟩ : ringbuffer_c Nat).copy_and_pop 2).2 =
        (⟨[5, 7], 1, 1, 0⟩ : ringbuffer_c Nat) ∧
      ((⟨[5, 7], 1, 1, 0⟩ : ringbuffer_c Nat).copy_and_pop 2).1 = some 5 := by
  have h := c8_pop_back_empty 2 (⟨[5, 7], 1, 1, 0⟩ : ringbuffer_c Nat)
    (by norm_num) rfl rfl (by norm_num)
  exact ⟨h.1, by simpa using h.2.1⟩

/-- C9: calling `copy_and_pop_front()` on an empty ring buffer
(`used == 0`) decrements `used` unconditionally, wrapping it modulo
`2 ^ 64` to `2 ^ 64 - 1`; immediately afterwards `size()` returns
`2 ^ 64 - 1` and `empty()` returns `false`. -/
theorem c9_pop_front_underflow {T : Type} (N : Nat) (s : ringbuffer_c T)
    (hu : s.used = 0) :
    ((s.copy_and_pop_front N).2).used = 2 ^ 64 - 1 ∧
      ((s.copy_and_pop_front N).2).size = 2 ^ 64 - 1 ∧
      ((s.copy_and_pop_front N).2).empty = false := by
  have hsz : ∀ y : ringbuffer_c T, y.size = y.used := fun _ => rfl
  have hem : ∀ y : ringbuffer_c T, y.empty = (y.used == 0) := fun _ => rfl
  have h1 : wsub1 0 = 2 ^ 64 - 1 := by norm_num [wsub1, W]
  have hused : ((s.copy_and_pop_front N).2).used = 2 ^ 64 - 1 := by
    simp [ringbuffer_c.copy_and_pop_front, hu, h1]
  refine ⟨hused, ?_, ?_⟩
  · rw [hsz, hused]
  · rw [hem, hused]
    decide

/-- C9 (witness): the empty one-slot buffer holding stale value 3:
`copy_and_pop_front()` wraps `used` to `2 ^ 64 - 1`. -/
theorem c9_witness :
    (((⟨[3], 0, 0, 0⟩ : ringbuffer_c Nat).copy_and_pop_front 1).2).used =
        2 ^ 64 - 1 ∧
      (((⟨[3], 0, 0, 0⟩ : ringbuffer_c Nat).copy_and_pop_front 1).2).size =
        2 ^ 64 - 1 ∧
      (((⟨[3], 0, 0, 0⟩ : ringbuffer_c Nat).copy_and_pop_front 1).2).empty =
        false :=
  c9_pop_front_underflow 1 (⟨[3], 0, 0, 0⟩ : ringbuffer_c Nat) rfl

/-- C10: calling `pop()` on an empty `queue_c` (`index == 0`), under
either policy, moves no elements (the buffer is unchanged) and wraps the
size counter modulo `2 ^ 64`: immediately afterwards `size()` returns
`2 ^ 64 - 1` and `empty()` returns `false`. -/
theorem c10_pop_empty {T : Type} [Inhabited T] (opt : queue_optimization)
    (q : queue_c T) (h : q.index = 0) :
    (queue_c.pop opt q).buffer = q.buffer ∧
      (queue_c.pop opt q).index = 2 ^ 64 - 1 ∧
      (queue_c.pop opt q).size = 2 ^ 64 - 1 ∧
      (queue_c.pop opt q).empty = false := by
  have hsz : ∀ y : queue_c T, y.size = y.index := fun _ => rfl
  have hem : ∀ y : queue_c T, y.empty = (y.index == 0) := fun _ => rfl
  have h1 : wsub1 0 = 2 ^ 64 - 1 := by norm_num [wsub1, W]
  have hidx : (queue_c.pop opt q).index = 2 ^ 64 - 1 := by
    cases opt <;> simp [queue_c.pop, h, h1]
  refine ⟨?_, hidx, by rw [hsz, hidx], by rw [hem, hidx]; decide⟩
  cases opt <;> simp [queue_c.pop, shiftDownLoop, shiftDownGo, h]

/-- C10 (witness): popping the fresh empty `queue_c<Nat, 2, WRITE>` wraps
the counter to `2 ^ 64 - 1` and moves nothing. -/
theorem c10_witness :
    (queue_c.pop .WRITE (queue_c.init Nat 2)).buffer =
        (queue_c.init Nat 2).buffer ∧
      (queue_c.pop .WRITE (queue_c.init Nat 2)).index = 2 ^ 64 - 1 ∧
      (queue_c.pop .WRITE (queue_c.init Nat 2)).size = 2 ^ 64 - 1 ∧
      (queue_c.pop .WRITE (queue_c.init Nat 2)).empty = false :=
  c10_pop_empty .WRITE (queue_c.init Nat 2) rfl

/-- C7 (amended): for both policy variants and every queue state with
`index == 0` (empty) whose storage has the template length, `push(x)`
immediately followed by `copy_and_pop()` returns `x` unchanged. -/
theorem c7_amended {T : Type} [Inhabited T] (N : Nat)
    (opt : queue_optimization) (x : T) (q : queue_c T) (hN : 0 < N)
    (hlen : q.buffer.length = N) (h : q.index = 0) :
    (queue_c.copy_and_pop opt (queue_c.push opt x q)).1 = x := by
  have h0 : 0 < q.buffer.length := by omega
  have hw1 : wadd 0 1 = 1 := by norm_num [wadd, W]
  have hs1 : wsub1 1 = 0 := by norm_num [wsub1, W]
  cases opt <;>
    simp [queue_c.push, queue_c.copy_and_pop, queue_c.front, h, shiftUpLoop,
      hw1, hs1, List.getElem?_set_eq_of_lt x h0]

/-- C7 (witness): pushing 42 onto the fresh empty `queue_c<Nat, 3, READ>`
and then calling `copy_and_pop()` returns 42. -/
theorem c7_witness :
    (queue_c.copy_and_pop .READ
      (queue_c.push .READ 42 (queue_c.init Nat 3))).1 = 42 :=
  c7_amended 3 .READ 42 (queue_c.init Nat 3) (by norm_num) (by decide) rfl

/-! From here on the wrap-arithmetic helpers are made irreducible: the
lemmas `wadd_one_eq`, `wsub1_eq`, `W_eq` are their interface.  This stops
definitional unfolding from expanding the `2 ^ 64` literal term by term
when states are symbolic. -/

attribute [irreducible] W wadd wsub wsub1

theorem push_WRITE_def [Inhabited T] (item : T) (q : queue_c T) :
    queue_c.push .WRITE item q =
      { buffer := q.buffer.set q.index item, index := wadd q.index 1 } := rfl

theorem push_READ_def [Inhabited T] (item : T) (q : queue_c T) :
    queue_c.push .READ item q =
      { buffer := (shiftUpLoop q.buffer q.index).set 0 item,
        index := wadd q.index 1 } := rfl

theorem pop_WRITE_def [Inhabited T] (q : queue_c T) :
    queue_c.pop .WRITE q =
      { buffer := shiftDownLoop q.buffer q.index,
        index := wsub1 q.index } := rfl

theorem pop_READ_def [Inhabited T] (q : queue_c T) :
    queue_c.pop .READ q = { q with index := wsub1 q.index } := rfl

/-- Driving operations for a `queue_c`: the mutators `push` and `pop`. -/
inductive QOp (T : Type) where
  | push (v : T)
  | pop

/-- Execute one operation on a queue state. -/
def execOp [Inhabited T] (opt : queue_optimization) (q : queue_c T) :
    QOp T → queue_c T
  | .push v => queue_c.push opt v q
  | .pop => queue_c.pop opt q

/-- Execute a sequence of operations from a starting state. -/
def execTrace [Inhabited T] (opt : queue_optimization) :
    queue_c T → List (QOp T) → queue_c T
  | q, [] => q
  | q, op :: tr => execTrace opt (execOp opt q op) tr

/-- Abstract FIFO contents (oldest first): `push` appends at the back,
`pop` removes the front. -/
def modelOp : List T → QOp T → List T
  | m, .push v => m ++ [v]
  | m, .pop => m.drop 1

/-- Abstract contents after a sequence of operations. -/
def modelTrace : List T → List (QOp T) → List T
  | m, [] => m
  | m, op :: tr => modelTrace (modelOp m op) tr

/-- A trace is valid from an element count `c` when every push happens
with the queue not full and every pop with the queue not empty — the
caller obligations the spec states for `queue_c`. -/
def ValidFrom {T : Type} (N : Nat) : Nat → List (QOp T) → Bool
  | _, [] => true
  | c, .push _ :: tr => decide (c < N) && ValidFrom N (c + 1) tr
  | c, .pop :: tr => decide (0 < c) && ValidFrom N (c - 1) tr

/-- Physical slot of logical element `i` (0 = oldest) among `count`
elements: under WRITE (ShiftOnRemove) the elements sit at `[0, count)`
oldest first; under READ (ShiftOnInsert) they sit at `[0, count)` newest
first. -/
def slotOf (opt : queue_optimization) (count i : Nat) : Nat :=
  match opt with
  | .WRITE => i
  | .READ => count - 1 - i

/-- State invariant tying a queue state to its abstract contents. -/
def QInv [Inhabited T] (N : Nat) (opt : queue_optimization) (q : queue_c T)
    (m : List T) : Prop :=
  q.index = m.length ∧ m.length ≤ N ∧ q.buffer.length = N ∧
    ∀ i, i < m.length →
      q.buffer.getD (slotOf opt m.length i) default = m.getD i default

theorem length_shiftUpLoop [Inhabited T] (buf : List T) (m : Nat) :
    (shiftUpLoop buf m).length = buf.length := by
  induction m generalizing buf with
  | zero => rfl
  | succ k ih => rw [shiftUpLoop, ih, List.length_set]

/-- Effect of the push relocation loop on each slot: slots `1..m` receive
the previous contents of slots `0..m-1`, the others are untouched. -/
theorem getD_shiftUpLoop [Inhabited T] (buf : List T) (m : Nat)
    (h : m < buf.length) (j : Nat) :
    (shiftUpLoop buf m).getD j default =
      if 1 ≤ j ∧ j ≤ m then buf.getD (j - 1) default
      else buf.getD j default := by
  induction m generalizing buf with
  | zero =>
    rw [shiftUpLoop, if_neg (by omega)]
  | succ k ih =>
    rw [shiftUpLoop, ih _ (by rw [List.length_set]; omega)]
    by_cases h1 : 1 ≤ j ∧ j ≤ k
    · rw [if_pos h1, if_pos (by omega),
        getD_set_other _ _ _ _ (by omega)]
    · rw [if_neg h1]
      by_cases h2 : j = k + 1
      · subst h2
        rw [getD_set_self _ _ _ (by omega), if_pos (by omega),
          Nat.add_sub_cancel]
      · rw [getD_set_other _ _ _ _ (by omega), if_neg (by omega)]

theorem length_shiftDownGo [Inhabited T] (buf : List T) (i fuel : Nat) :
    (shiftDownGo buf i fuel).length = buf.length := by
  induction fuel generalizing buf i with
  | zero => rfl
  | succ k ih => rw [shiftDownGo, ih, List.length_set]

/-- Effect of the pop relocation loop on each slot: starting at loop
counter `i` with `fuel` iterations left, slots `i-1 .. i+fuel-2` receive
the previous contents of slots `i .. i+fuel-1`, the others are
untouched. -/
theorem getD_shiftDownGo [Inhabited T] (buf : List T) (i fuel : Nat)
    (hi : 1 ≤ i) (hlen : i + fuel ≤ buf.length) (j : Nat) :
    (shiftDownGo buf i fuel).getD j default =
      if i ≤ j + 1 ∧ j + 1 < i + fuel then buf.getD (j + 1) default
      else buf.getD j default := by
  induction fuel generalizing buf i with
  | zero =>
    rw [shiftDownGo, if_neg (by omega)]
  | succ k ih =>
    rw [shiftDownGo, ih _ (i + 1) (by omega) (by rw [List.length_set]; omega)]
    by_cases h1 : i + 1 ≤ j + 1 ∧ j + 1 < i + 1 + k
    · rw [if_pos h1, if_pos (by omega),
        getD_set_other _ _ _ _ (by omega)]
    · rw [if_neg h1]
      by_cases h2 : j + 1 = i
      · have hij : i = j + 1 := by omega
        subst hij
        rw [if_pos (by omega), Nat.add_sub_cancel,
          getD_set_self _ _ _ (by omega)]
      · rw [getD_set_other _ _ _ _ (by omega), if_neg (by omega)]

theorem getD_append_lt [Inhabited T] (l l2 : List T) (i : Nat)
    (h : i < l.length) : (l ++ l2).getD i default = l.getD i default :=
  List.getD_append l l2 default i h

theorem getD_append_len [Inhabited T] (l : List T) (v : T) :
    (l ++ [v]).getD l.length default = v := by
  rw [List.getD_append_right l [v] default l.length (le_refl l.length)]
  simp

theorem getD_drop_one [Inhabited T] (l : List T) (i : Nat) :
    (l.drop 1).getD i default = l.getD (i + 1) default := by
  cases l with
  | nil => simp
  | cons a t => simp

theorem push_QInv [Inhabited T] {N : Nat} {opt : queue_optimization}
    {q : queue_c T} {m : List T} (hNW : N < W) (hinv : QInv N opt q m)
    (hlt : m.length < N) (v : T) :
    QInv N opt (queue_c.push opt v q) (m ++ [v]) := by
  obtain ⟨hidx, hle, hbuf, hval⟩ := hinv
  have hm1 : (m ++ [v]).length = m.length + 1 := by simp
  have hw : wadd q.index 1 = m.length + 1 := by
    rw [hidx]; exact wadd_one_eq _ (by omega)
  cases opt with
  | WRITE =>
    refine ⟨by simp [queue_c.push, hw], by omega,
      by simp [queue_c.push, hbuf], ?_⟩
    intro i hi
    rw [hm1] at hi
    simp only [queue_c.push, slotOf, hm1]
    by_cases hcase : i = m.length
    · subst hcase
      rw [hidx, getD_set_self _ _ _ (by omega), getD_append_len]
    · have hi' : i < m.length := by omega
      rw [hidx, getD_set_other _ _ _ _ (by omega), getD_append_lt _ _ _ hi']
      have := hval i hi'
      simpa [slotOf] using this
  | READ =>
    refine ⟨by simp [queue_c.push, hw], by omega,
      by simp [queue_c.push, length_shiftUpLoop, hbuf], ?_⟩
    intro i hi
    rw [hm1] at hi
    simp only [queue_c.push, slotOf, hm1]
    by_cases hcase : i = m.length
    · subst hcase
      rw [show m.length + 1 - 1 - m.length = 0 from by omega,
        getD_set_self _ _ _ (by rw [length_shiftUpLoop]; omega),
        getD_append_len]
    · have hi' : i < m.length := by omega
      rw [getD_set_other _ _ _ _ (by omega), hidx,
        getD_shiftUpLoop _ _ (by omega) _, if_pos (by omega),
        show m.length + 1 - 1 - i - 1 = m.length - 1 - i from by omega,
        getD_append_lt _ _ _ hi']
      have := hval i hi'
      simpa [slotOf] using this

theorem pop_QInv [Inhabited T] {N : Nat} {opt : queue_optimization}
    {q : queue_c T} {m : List T} (hNW : N < W) (hinv : QInv N opt q m)
    (hpos : 0 < m.length) :
    QInv N opt (queue_c.pop opt q) (m.drop 1) := by
  obtain ⟨hidx, hle, hbuf, hval⟩ := hinv
  have hm1 : (m.drop 1).length = m.length - 1 := by simp
  have hw : wsub1 q.index = m.length - 1 := by
    rw [hidx]; exact wsub1_eq _ hpos (by omega)
  cases opt with
  | WRITE =>
    rw [pop_WRITE_def]
    refine ⟨?_, by rw [hm1]; omega, ?_, ?_⟩
    · show wsub1 q.index = (m.drop 1).length
      rw [hw, hm1]
    · show (shiftDownLoop q.buffer q.index).length = N
      simp only [shiftDownLoop]
      rw [length_shiftDownGo, hbuf]
    · intro i hi
      rw [hm1] at hi
      show (shiftDownLoop q.buffer q.index).getD
          (slotOf .WRITE (m.drop 1).length i) default =
        (m.drop 1).getD i default
      simp only [shiftDownLoop, slotOf]
      rw [hidx, getD_shiftDownGo q.buffer 1 (m.length - 1) (le_refl 1)
          (by omega) i,
        if_pos (by omega), getD_drop_one]
      have := hval (i + 1) (by omega)
      simpa [slotOf] using this
  | READ =>
    rw [pop_READ_def]
    refine ⟨?_, by rw [hm1]; omega, ?_, ?_⟩
    · show wsub1 q.index = (m.drop 1).length
      rw [hw, hm1]
    · show q.buffer.length = N
      exact hbuf
    · intro i hi
      rw [hm1] at hi
      show q.buffer.getD (slotOf .READ (m.drop 1).length i) default =
        (m.drop 1).getD i default
      simp only [slotOf]
      rw [hm1, getD_drop_one,
        show m.length - 1 - 1 - i = m.length - 1 - (i + 1) from by omega]
      have := hval (i + 1) (by omega)
      simpa [slotOf] using this

theorem trace_QInv [Inhabited T] {N : Nat} {opt : queue_optimization}
    (hNW : N < W) (tr : List (QOp T)) :
    ∀ (q : queue_c T) (m : List T), QInv N opt q m →
      ValidFrom N m.length tr = true →
      QInv N opt (execTrace opt q tr) (modelTrace m tr) := by
  induction tr with
  | nil =>
    intro q m h _
    exact h
  | cons op tr ih =>
    intro q m hinv hv
    cases op with
    | push v =>
      simp only [ValidFrom, Bool.and_eq_true, decide_eq_true_eq] at hv
      simp only [execTrace, execOp, modelTrace, modelOp]
      refine ih _ _ (push_QInv hNW hinv hv.1 v) ?_
      rw [show (m ++ [v]).length = m.length + 1 from by simp]
      exact hv.2
    | pop =>
      simp only [ValidFrom, Bool.and_eq_true, decide_eq_true_eq] at hv
      simp only [execTrace, execOp, modelTrace, modelOp]
      refine ih _ _ (pop_QInv hNW hinv hv.1) ?_
      rw [show (m.drop 1).length = m.length - 1 from by simp]
      exact hv.2

/-- C5 (amended): in every queue state reachable from the fresh queue by
a valid operation sequence (pushes only when not full, pops only when
nonempty; element-wise relocation branch), the `index` valid elements
occupy physical slots `[0, index)`: under WRITE (ShiftOnRemove) slot `i`
holds logical element `i` (oldest first), while under READ
(ShiftOnInsert) slot `index - 1 - i` holds logical element `i` (newest
first) — not slots `[N - count, N)` as originally claimed. -/
theorem c5_amended {T : Type} [Inhabited T] (N : Nat)
    (opt : queue_optimization) (tr : List (QOp T)) (hNW : N < W)
    (hv : ValidFrom N 0 tr = true) :
    (execTrace opt (queue_c.init T N) tr).index =
        (modelTrace [] tr).length ∧
      ∀ i, i < (modelTrace [] tr).length →
        (execTrace opt (queue_c.init T N) tr).buffer.getD
            (slotOf opt (modelTrace [] tr).length i) default =
          (modelTrace [] tr).getD i default := by
  have h0 : QInv N opt (queue_c.init T N) [] := by
    refine ⟨rfl, by simp, by simp [queue_c.init], ?_⟩
    intro i hi
    simp at hi
  have h := trace_QInv hNW tr (queue_c.init T N) [] h0 hv
  exact ⟨h.1, h.2.2.2⟩

/-- C5 (witness): for the valid trace push(5), push(7), pop() on
`queue_c<Nat, 2, READ>`, one element remains (`index = 1`) and the
remaining element 7 sits at physical slot `index - 1 - 0 = 0`. -/
theorem c5_witness :
    (execTrace .READ (queue_c.init Nat 2)
        [QOp.push 5, QOp.push 7, QOp.pop]).index = 1 ∧
      (execTrace .READ (queue_c.init Nat 2)
          [QOp.push 5, QOp.push 7, QOp.pop]).buffer.getD 0 default = 7 := by
  have h := c5_amended 2 .READ [QOp.push 5, QOp.push 7, QOp.pop]
    (by rw [W_eq]; omega) (by decide)
  constructor
  · rw [h.1]
    decide
  · have h2 := h.2 0 (by decide)
    rw [show slotOf .READ
        (modelTrace ([] : List Nat)
          [QOp.push 5, QOp.push 7, QOp.pop]).length 0 = 0 from by decide]
      at h2
    rw [h2]
    decide

/-- Push each element of a list in order. -/
def pushAll [Inhabited T] (opt : queue_optimization) :
    queue_c T → List T → queue_c T
  | q, [] => q
  | q, v :: vs => pushAll opt (queue_c.push opt v q) vs

theorem pushAll_QInv [Inhabited T] {N : Nat} {opt : queue_optimization}
    (hNW : N < W) (vs : List T) :
    ∀ (q : queue_c T) (m : List T), QInv N opt q m →
      m.length + vs.length ≤ N →
      QInv N opt (pushAll opt q vs) (m ++ vs) := by
  induction vs with
  | nil =>
    intro q m h _
    simpa using h
  | cons v vs ih =>
    intro q m h hle
    simp only [pushAll]
    simp only [List.length_cons] at hle
    have h2 := ih (queue_c.push opt v q) (m ++ [v])
      (push_QInv hNW h (by omega) v)
      (by simp; omega)
    simpa using h2

theorem front_back_QInv [Inhabited T] {N : Nat} {opt : queue_optimization}
    {q : queue_c T} {m : List T} (hNW : N < W) (hinv : QInv N opt q m)
    (hne : 0 < m.length) :
    queue_c.front opt q = m.getD 0 default ∧
      queue_c.back opt q = m.getD (m.length - 1) default := by
  obtain ⟨hidx, hle, hbuf, hval⟩ := hinv
  have hw : wsub1 q.index = m.length - 1 := by
    rw [hidx]
    exact wsub1_eq _ hne (by omega)
  cases opt with
  | WRITE =>
    constructor
    · have h0 := hval 0 hne
      simp only [slotOf] at h0
      show q.buffer.getD 0 default = m.getD 0 default
      exact h0
    · have h1 := hval (m.length - 1) (by omega)
      simp only [slotOf] at h1
      show q.buffer.getD (wsub1 q.index) default =
        m.getD (m.length - 1) default
      rw [hw]
      exact h1
  | READ =>
    constructor
    · have h0 := hval 0 hne
      simp only [slotOf] at h0
      show q.buffer.getD (wsub1 q.index) default = m.getD 0 default
      rw [hw]
      simpa using h0
    · have h1 := hval (m.length - 1) (by omega)
      simp only [slotOf] at h1
      have hz : m.length - 1 - (m.length - 1) = 0 := by omega
      rw [hz] at h1
      show q.buffer.getD 0 default = m.getD (m.length - 1) default
      exact h1

/-- C6 (amended): `clear()` (modelled from the spec; absent from
queue.hpp though the repository test suite calls it) resets `count` to 0
without erasing stored values, and `empty()` returns true immediately
afterwards; for element types relocated element-wise (the
non-trivially-copyable branch), pushing any sequence of at most N values
after `clear()` yields the same size, emptiness, fullness, front and
back as pushing the same sequence on a freshly constructed queue, under
either policy.  (For trivially-copyable `T` wider than one byte the
READ-policy memmove leaks stale post-clear bytes — see the
counterexample.) -/
theorem c6_clear {T : Type} [Inhabited T] (N : Nat)
    (opt : queue_optimization) (q : queue_c T) (vs : List T) (hNW : N < W)
    (hbuf : q.buffer.length = N) (hvs : vs.length ≤ N) :
    (queue_c.clear q).empty = true ∧
      (pushAll opt (queue_c.clear q) vs).size =
        (pushAll opt (queue_c.init T N) vs).size ∧
      (pushAll opt (queue_c.clear q) vs).empty =
        (pushAll opt (queue_c.init T N) vs).empty ∧
      (pushAll opt (queue_c.clear q) vs).full N =
        (pushAll opt (queue_c.init T N) vs).full N ∧
      (0 < vs.length →
        queue_c.front opt (pushAll opt (queue_c.clear q) vs) =
            queue_c.front opt (pushAll opt (queue_c.init T N) vs) ∧
          queue_c.back opt (pushAll opt (queue_c.clear q) vs) =
            queue_c.back opt (pushAll opt (queue_c.init T N) vs)) := by
  have hem : ∀ y : queue_c T, y.empty = (y.index == 0) := fun _ => rfl
  have hsz : ∀ y : queue_c T, y.size = y.index := fun _ => rfl
  have hfl : ∀ y : queue_c T, y.full N = (y.index == N) := fun _ => rfl
  have hinv1 : QInv N opt (queue_c.clear q) [] := by
    refine ⟨rfl, by simp, ?_, ?_⟩
    · show q.buffer.length = N
      exact hbuf
    · intro i hi
      simp at hi
  have hinv2 : QInv N opt (queue_c.init T N) [] := by
    refine ⟨rfl, by simp, by simp [queue_c.init], ?_⟩
    intro i hi
    simp at hi
  have h1 := pushAll_QInv hNW vs (queue_c.clear q) [] hinv1 (by simpa using hvs)
  have h2 := pushAll_QInv hNW vs (queue_c.init T N) [] hinv2 (by simpa using hvs)
  rw [List.nil_append] at h1 h2
  have hidx : (pushAll opt (queue_c.clear q) vs).index =
      (pushAll opt (queue_c.init T N) vs).index := by
    rw [h1.1, h2.1]
  refine ⟨rfl, ?_, ?_, ?_, ?_⟩
  · rw [hsz, hsz, hidx]
  · rw [hem, hem, hidx]
  · rw [hfl, hfl, hidx]
  · intro hne
    have f1 := front_back_QInv hNW h1 hne
    have f2 := front_back_QInv hNW h2 hne
    exact ⟨f1.1.trans f2.1.symm, f1.2.trans f2.2.symm⟩

/-- C6 (witness): clearing the full stale queue `⟨[9, 9], 2⟩` and pushing
3 behaves like pushing 3 on a fresh `queue_c<Nat, 2, WRITE>`: `empty()`
holds right after `clear()`, and the front values agree afterwards. -/
theorem c6_witness :
    (queue_c.clear (⟨[9, 9], 2⟩ : queue_c Nat)).empty = true ∧
      queue_c.front .WRITE
          (pushAll .WRITE (queue_c.clear (⟨[9, 9], 2⟩ : queue_c Nat)) [3]) =
        queue_c.front .WRITE (pushAll .WRITE (queue_c.init Nat 2) [3]) := by
  have h := c6_clear 2 .WRITE (⟨[9, 9], 2⟩ : queue_c Nat) [3]
    (by rw [W_eq]; omega) rfl (by decide)
  exact ⟨h.1, (h.2.2.2.2 (by decide)).1⟩
